import Mathlib

/-!
Shallow embedding of `src/assembler.py` (table-driven CSV assembler).

The program reads tabular rows, assembles each row into an IR record by
looking the mnemonic up in a fixed instruction table and parsing operand
cells as optional integers, and serializes the IR records to bytes
(one opcode byte, then each field as 4 little-endian bytes).

Modelling conventions:
* Python strings are Lean `String` (ASCII fragment; `str.strip` is
  `String.trim`, `str.upper` is character-wise `Char.toUpper`).
* A cell value that is Python `None` is `Option.none`; a present string
  cell `s` is `some s`.  A row (Python `dict`) is an association list.
* Python `int(s)` / `int(s, 16)` on a stripped string is modelled by
  `pyInt10` / `pyInt16`, including CPython's underscore-separator rule
  (a single `_` may stand between two digits, or directly after the
  `0x` base marker; leading, trailing or doubled underscores fail).
* Fallible Python code (raising `ValueError` / `OverflowError` /
  `AttributeError`) becomes `Except` / `Option` results.
* `int.to_bytes(4, "little")` succeeds exactly for values in
  `[0, 2^32)` and raises `OverflowError` otherwise; this is modelled by
  `toBytesLE4` returning `none` outside that range.
-/

deriving instance DecidableEq for Except

/-- Value of an ASCII decimal digit, `none` for any other character. -/
def digitVal10 (c : Char) : Option Nat :=
  if '0' ≤ c ∧ c ≤ '9' then some (c.toNat - '0'.toNat) else none

/-- Value of an ASCII hexadecimal digit (both cases), `none` otherwise. -/
def digitVal16 (c : Char) : Option Nat :=
  if '0' ≤ c ∧ c ≤ '9' then some (c.toNat - '0'.toNat)
  else if 'a' ≤ c ∧ c ≤ 'f' then some (c.toNat - 'a'.toNat + 10)
  else if 'A' ≤ c ∧ c ≤ 'F' then some (c.toNat - 'A'.toNat + 10)
  else none

/-- Continuation of CPython's `digitpart` after one digit has been read:
either the input ends, or the next digit follows directly, or a single
underscore stands before the next digit. -/
def digitPartAux (dv : Char → Option Nat) (base : Nat) (acc : Nat) :
    List Char → Option Nat
  | [] => some acc
  | c :: cs =>
    if c = '_' then
      match cs with
      | [] => none
      | c2 :: cs2 =>
        match dv c2 with
        | some d => digitPartAux dv base (acc * base + d) cs2
        | none => none
    else
      match dv c with
      | some d => digitPartAux dv base (acc * base + d) cs
      | none => none

/-- CPython's `digitpart`: one or more digits with single underscores
allowed between digits (never leading or trailing). -/
def digitPart (dv : Char → Option Nat) (base : Nat) : List Char → Option Nat
  | [] => none
  | c :: cs =>
    match dv c with
    | some d => digitPartAux dv base d cs
    | none => none

/-- Hex digits after a `0x`/`0X` base marker: CPython additionally allows
one underscore directly after the marker. -/
def hexTail : List Char → Option Nat
  | [] => none
  | c :: cs => if c = '_' then digitPart digitVal16 16 cs
               else digitPart digitVal16 16 (c :: cs)

/-- Python `int(s)` (base 10) on an already-stripped string. -/
def pyInt10 (s : String) : Option Int :=
  match s.toList with
  | [] => none
  | c :: cs =>
    if c = '+' then (digitPart digitVal10 10 cs).map Int.ofNat
    else if c = '-' then (digitPart digitVal10 10 cs).map (fun n => -Int.ofNat n)
    else (digitPart digitVal10 10 (c :: cs)).map Int.ofNat

/-- Body of Python `int(s, 16)` after the optional sign: an optional
`0x`/`0X` marker, then hex digits. -/
def pyInt16Body : List Char → Option Nat
  | [] => none
  | c :: cs =>
    match cs with
    | [] => digitPart digitVal16 16 [c]
    | c2 :: cs2 =>
      if c = '0' ∧ (c2 = 'x' ∨ c2 = 'X') then hexTail cs2
      else digitPart digitVal16 16 (c :: c2 :: cs2)

/-- Python `int(s, 16)` on an already-stripped string. -/
def pyInt16 (s : String) : Option Int :=
  match s.toList with
  | [] => none
  | c :: cs =>
    if c = '+' then (pyInt16Body cs).map Int.ofNat
    else if c = '-' then (pyInt16Body cs).map (fun n => -Int.ofNat n)
    else (pyInt16Body (c :: cs)).map Int.ofNat

/-- Python `str.upper` restricted to ASCII. -/
def pyUpper (s : String) : String := String.mk (s.toList.map Char.toUpper)

/-- ASCII whitespace stripped by Python `str.strip()`. -/
def isPySpace (c : Char) : Bool :=
  c = ' ' ∨ c = '\t' ∨ c = '\n' ∨ c = '\r' ∨ c = '\x0b' ∨ c = '\x0c'

/-- Python `str.strip()` (ASCII fragment): drop whitespace from both
ends. -/
def pyStrip (s : String) : String :=
  String.mk (((s.toList.dropWhile isPySpace).reverse.dropWhile isPySpace).reverse)

/-- Python `s.startswith(p)` for a two-character pattern `p = c1 c2`. -/
def startsWith2 (t : String) (c1 c2 : Char) : Bool :=
  match t.toList with
  | a :: b :: _ => a = c1 ∧ b = c2
  | _ => false

/-- The source's `parse_value`: `None` or blank text is "no value";
a `0x`/`0X`-prefixed string is parsed base 16; anything else base 10.
A failed `int(...)` call raises `ValueError`, modelled as `Except.error`
carrying the interpreter's message. -/
def parse_value (s : Option String) : Except String (Option Int) :=
  match s with
  | none => Except.ok none
  | some s0 =>
    let t := pyStrip s0
    if t = "" then Except.ok none
    else if startsWith2 t '0' 'x' ∨ startsWith2 t '0' 'X' then
      match pyInt16 t with
      | some n => Except.ok (some n)
      | none =>
        Except.error ("invalid literal for int() with base 16: '" ++ t ++ "'")
    else
      match pyInt10 t with
      | some n => Except.ok (some n)
      | none =>
        Except.error ("invalid literal for int() with base 10: '" ++ t ++ "'")

/-- The static instruction table: mnemonic, opcode, declared size, and the
ordered field-name list, exactly as in the source. -/
def INSTRUCTION_SET : List (String × Nat × Nat × List String) :=
  [("LOAD_CONST", (0x01, 5, ["A", "B", "CONST"])),
   ("READ_MEM",   (0x02, 3, ["A", "B", "OFFSET"])),
   ("WRITE_MEM",  (0x03, 3, ["A", "B", "OFFSET"])),
   ("POPCT",      (0x04, 1, ["A"]))]

/-- Catalog lookup, `INSTRUCTION_SET[m]` as a partial map. -/
def catalogFind (m : String) : Option (Nat × Nat × List String) :=
  (INSTRUCTION_SET.find? (fun p => p.fst = m)).map (fun p => p.snd)

/-- A normalized row: association list from column name to cell, where a
cell is `none` for Python `None` and `some s` for a string value. -/
def Row : Type := List (String × Option String)

/-- Python `row.get(k, dflt)`: the stored cell when the key is present
(even when that cell is `None`), the default otherwise. -/
def rowGet (row : Row) (k : String) (dflt : Option String) : Option String :=
  match List.find? (fun p => p.fst = k) row with
  | some p => p.snd
  | none => dflt

/-- Errors raised during assembly of one row.  The first three are the
`ValueError`s raised explicitly or by `int(...)`; `noneUpper` is the
`AttributeError` raised by `None.upper()` when the mnemonic cell is
Python `None`. -/
inductive AsmError where
  | emptyMnemonic (lineno : Nat)
  | unknownMnemonic (m : String) (lineno : Nat)
  | fieldParse (msg : String)
  | noneUpper
deriving DecidableEq, Repr

/-- The interpreter's message for each assembly error, as interpolated by
`main` into its error line. -/
def errMsg : AsmError → String
  | AsmError.emptyMnemonic n => "Empty mnemonic at line " ++ toString n
  | AsmError.unknownMnemonic m n =>
      "Unknown mnemonic '" ++ m ++ "' at line " ++ toString n
  | AsmError.fieldParse msg => msg
  | AsmError.noneUpper => "'NoneType' object has no attribute 'upper'"

/-- One IR record, the dictionary built by `assemble_instruction`.  The
`fields` list keeps the descriptor's declared order, as the Python dict
keeps insertion order. -/
structure IRRecord where
  mnemonic : String
  opcode : Nat
  size : Nat
  fields : List (String × Option Int)
  src_line : Nat
deriving DecidableEq, Repr

/-- The field-parsing loop of `assemble_instruction`: for each declared
field name fetch `row.get(f, "")` and run `parse_value`; the first
`ValueError` aborts the row. -/
def parseFields (row : Row) : List String → Except AsmError (List (String × Option Int))
  | [] => Except.ok []
  | f :: rest =>
    match parse_value (rowGet row f (some "")) with
    | Except.error msg => Except.error (AsmError.fieldParse msg)
    | Except.ok v =>
      match parseFields row rest with
      | Except.error e => Except.error e
      | Except.ok tl => Except.ok ((f, v) :: tl)

/-- The source's `assemble_instruction`.  `row.get("mnemonic", "")` is
uppercased (raising `AttributeError` on a `None` cell), checked against
the empty string and the catalog, then every declared field is parsed. -/
def assemble_instruction (row : Row) (lineno : Nat) : Except AsmError IRRecord :=
  match rowGet row "mnemonic" (some "") with
  | none => Except.error AsmError.noneUpper
  | some m0 =>
    let mnemonic := pyUpper m0
    if mnemonic = "" then Except.error (AsmError.emptyMnemonic lineno)
    else
      match catalogFind mnemonic with
      | none => Except.error (AsmError.unknownMnemonic mnemonic lineno)
      | some (opcode, size, fields) =>
        match parseFields row fields with
        | Except.error e => Except.error e
        | Except.ok pf => Except.ok ⟨mnemonic, opcode, size, pf, lineno⟩

/-- Python `int(v).to_bytes(4, "little")`: four little-endian bytes for a
value in `[0, 2^32)`, `OverflowError` (modelled as `none`) otherwise. -/
def toBytesLE4 (v : Int) : Option (List Nat) :=
  if 0 ≤ v ∧ v < 2 ^ 32 then
    let n := v.toNat
    some [n % 256, n / 256 % 256, n / 256 ^ 2 % 256, n / 256 ^ 3 % 256]
  else none

/-- Field serialization: a `None` value becomes four zero bytes, an
integer its 4-byte little-endian encoding. -/
def encodeField : Option Int → Option (List Nat)
  | none => some [0, 0, 0, 0]
  | some v => toBytesLE4 v

/-- Serialize every field of one record, in stored (declared) order. -/
def encodeFields : List (String × Option Int) → Option (List Nat)
  | [] => some []
  | p :: rest =>
    match encodeField p.snd with
    | none => none
    | some b =>
      match encodeFields rest with
      | none => none
      | some bs => some (b ++ bs)

/-- One record's bytes: `opcode & 0xFF`, then the fields. -/
def encodeRecord (r : IRRecord) : Option (List Nat) :=
  match encodeFields r.fields with
  | none => none
  | some bs => some (r.opcode % 256 :: bs)

/-- The source's `generate_binary`: concatenate every record's encoding in
input order.  `none` models the uncaught `OverflowError` raised by
`to_bytes` on a negative or too-large field value. -/
def generate_binary : List IRRecord → Option (List Nat)
  | [] => some []
  | r :: rest =>
    match encodeRecord r with
    | none => none
    | some b =>
      match generate_binary rest with
      | none => none
      | some bs => some (b ++ bs)

/-- The assembly loop of `main`: rows are assembled in order with 1-based
line numbers; the first failure aborts with its line number and error. -/
def assembleAll : List Row → Nat → Except (Nat × AsmError) (List IRRecord)
  | [], _ => Except.ok []
  | r :: rest, i =>
    match assemble_instruction r i with
    | Except.error e => Except.error (i, e)
    | Except.ok ir =>
      match assembleAll rest (i + 1) with
      | Except.error f => Except.error f
      | Except.ok irs => Except.ok (ir :: irs)

/-- Outcome of one run of `main` on the normalized rows.  `okWrite` is
exit code 0 with the binary written (or dumped in test mode);
`rowFailure` is the `sys.exit(1)` path, with the single line printed to
stderr and no output written; `encodeCrash` is the uncaught
`OverflowError` escaping `generate_binary` (traceback, nonzero exit, no
output written). -/
inductive MainOutcome where
  | okWrite (binary : List Nat)
  | rowFailure (line : Nat) (errLine : String)
  | encodeCrash
deriving DecidableEq, Repr

/-- The error line `main` prints for the first failing row. -/
def errLineStr (i : Nat) (e : AsmError) : String :=
  "[ERROR] line " ++ toString i ++ ": " ++ errMsg e

/-- The core of `main`: assemble all rows, then encode; the first row
error exits with code 1 before anything is written. -/
def pipeline (rows : List Row) : MainOutcome :=
  match assembleAll rows 1 with
  | Except.error (i, e) => MainOutcome.rowFailure i (errLineStr i e)
  | Except.ok irs =>
    match generate_binary irs with
    | some b => MainOutcome.okWrite b
    | none => MainOutcome.encodeCrash

lemma encodeField_length {v : Option Int} {b : List Nat}
    (h : encodeField v = some b) : b.length = 4 := by
  cases v with
  | none =>
    simp only [encodeField, Option.some.injEq] at h
    subst h; rfl
  | some x =>
    simp only [encodeField, toBytesLE4] at h
    split at h
    · simp only [Option.some.injEq] at h
      subst h; rfl
    · exact absurd h (by simp)

lemma encodeFields_length {fs : List (String × Option Int)} {bs : List Nat}
    (h : encodeFields fs = some bs) : bs.length = 4 * fs.length := by
  induction fs generalizing bs with
  | nil =>
    simp only [encodeFields, Option.some.injEq] at h
    subst h; rfl
  | cons p rest ih =>
    simp only [encodeFields] at h
    cases h1 : encodeField p.snd with
    | none => rw [h1] at h; exact absurd h (by simp)
    | some b1 =>
      rw [h1] at h
      cases h2 : encodeFields rest with
      | none => rw [h2] at h; exact absurd h (by simp)
      | some bs2 =>
        rw [h2] at h
        simp only [Option.some.injEq] at h
        subst h
        simp [List.length_append, encodeField_length h1, ih h2,
          List.length_cons, Nat.mul_add, Nat.mul_succ]
        ring

lemma encodeRecord_length {r : IRRecord} {b : List Nat}
    (h : encodeRecord r = some b) : b.length = 1 + 4 * r.fields.length := by
  simp only [encodeRecord] at h
  cases h1 : encodeFields r.fields with
  | none => rw [h1] at h; exact absurd h (by simp)
  | some bs =>
    rw [h1] at h
    simp only [Option.some.injEq] at h
    subst h
    simp [encodeFields_length h1, Nat.add_comm]

/-- C4: encoding a single LOAD_CONST record with opcode 0x01 and fields
A=1, B=2, CONST=0x10 yields exactly the 13 bytes
`01 01 00 00 00 02 00 00 00 10 00 00 00` — one opcode byte, then each
field as 4 little-endian bytes in declared field order. -/
theorem encode_load_const_example :
    generate_binary
      [⟨"LOAD_CONST", 0x01, 5,
        [("A", some 1), ("B", some 2), ("CONST", some 0x10)], 1⟩] =
      some [0x01, 0x01, 0x00, 0x00, 0x00, 0x02, 0x00, 0x00, 0x00,
            0x10, 0x00, 0x00, 0x00] := by
  rfl

/-- C8: whenever the encoder succeeds, the output length is the sum over
records of `1 + 4 × number of fields`. -/
theorem generate_binary_length (irs : List IRRecord) (bs : List Nat)
    (h : generate_binary irs = some bs) :
    bs.length = (irs.map (fun r => 1 + 4 * r.fields.length)).sum := by
  induction irs generalizing bs with
  | nil =>
    simp only [generate_binary, Option.some.injEq] at h
    subst h; rfl
  | cons r rest ih =>
    simp only [generate_binary] at h
    cases h1 : encodeRecord r with
    | none => rw [h1] at h; exact absurd h (by simp)
    | some b1 =>
      rw [h1] at h
      cases h2 : generate_binary rest with
      | none => rw [h2] at h; exact absurd h (by simp)
      | some bs2 =>
        rw [h2] at h
        simp only [Option.some.injEq] at h
        subst h
        simp [List.length_append, encodeRecord_length h1, ih bs2 h2]

/-- C8 witness at a concrete two-record sequence. -/
theorem generate_binary_length_witness :
    ([4, 3, 0, 0, 0, 1, 1, 0, 0, 0, 2, 0, 0, 0, 16, 0, 0, 0] : List Nat).length =
      (([⟨"POPCT", 4, 1, [("A", some 3)], 1⟩,
         ⟨"LOAD_CONST", 1, 5,
          [("A", some 1), ("B", some 2), ("CONST", some 16)], 2⟩] :
        List IRRecord).map (fun r => 1 + 4 * r.fields.length)).sum :=
  generate_binary_length _ _ rfl

/-- C9: the encoder sends the empty record list to the empty byte list and
concatenation of record lists to concatenation of their encodings (in the
partiality monad, so in particular whenever both halves encode, the whole
encodes to the concatenation in original order). -/
theorem generate_binary_concat_hom :
    generate_binary ([] : List IRRecord) = some [] ∧
    ∀ xs ys : List IRRecord,
      generate_binary (xs ++ ys) =
        Option.bind (generate_binary xs)
          (fun a => Option.map (fun b => a ++ b) (generate_binary ys)) := by
  refine ⟨rfl, fun xs ys => ?_⟩
  induction xs with
  | nil =>
    simp only [List.nil_append, generate_binary, Option.bind]
    cases generate_binary ys <;> rfl
  | cons r rest ih =>
    simp only [List.cons_append, generate_binary]
    cases h1 : encodeRecord r with
    | none => rfl
    | some b1 =>
      simp only [List.append_eq]
      rw [ih]
      cases h2 : generate_binary rest with
      | none => rfl
      | some bs2 =>
        cases h3 : generate_binary ys with
        | none => rfl
        | some bs3 => simp [List.append_assoc]

lemma encodeRecord_congr {x y : IRRecord} (ho : x.opcode = y.opcode)
    (hf : x.fields = y.fields) : encodeRecord x = encodeRecord y := by
  simp only [encodeRecord, ho, hf]

/-- C10: the encoded output is independent of the declared size: two IR
sequences equal in mnemonic, opcode, fields and source line of every
record — and so possibly differing only in each record's `size` field —
encode to identical byte sequences. -/
theorem generate_binary_size_independent (xs ys : List IRRecord)
    (h : xs.map (fun r => (r.mnemonic, r.opcode, r.fields, r.src_line)) =
         ys.map (fun r => (r.mnemonic, r.opcode, r.fields, r.src_line))) :
    generate_binary xs = generate_binary ys := by
  induction xs generalizing ys with
  | nil =>
    cases ys with
    | nil => rfl
    | cons y ys' => simp at h
  | cons x xs' ih =>
    cases ys with
    | nil => simp at h
    | cons y ys' =>
      simp only [List.map_cons, List.cons.injEq] at h
      obtain ⟨h1, h2⟩ := h
      simp only [Prod.mk.injEq] at h1
      obtain ⟨hm, ho, hf, hs⟩ := h1
      simp only [generate_binary, encodeRecord_congr ho hf, ih ys' h2]

/-- C10 witness: two concrete single-record sequences differing only in
the declared size encode identically. -/
theorem generate_binary_size_independent_witness :
    generate_binary [⟨"POPCT", 4, 1, [("A", some 3)], 1⟩] =
    generate_binary [⟨"POPCT", 4, 99, [("A", some 3)], 1⟩] :=
  generate_binary_size_independent _ _ rfl

lemma encodeField_isSome {v : Option Int}
    (hv : ∀ x : Int, v = some x → 0 ≤ x ∧ x < 2 ^ 32) :
    ∃ b, encodeField v = some b := by
  cases v with
  | none => exact ⟨_, rfl⟩
  | some x =>
    have hx := hv x rfl
    exact ⟨[x.toNat % 256, x.toNat / 256 % 256, x.toNat / 256 ^ 2 % 256,
            x.toNat / 256 ^ 3 % 256],
      by simp only [encodeField, toBytesLE4, if_pos hx]⟩

lemma encodeFields_isSome {fs : List (String × Option Int)}
    (hv : ∀ p ∈ fs, ∀ x : Int, p.snd = some x → 0 ≤ x ∧ x < 2 ^ 32) :
    ∃ bs, encodeFields fs = some bs := by
  induction fs with
  | nil => exact ⟨[], rfl⟩
  | cons p rest ih =>
    obtain ⟨b, hb⟩ := encodeField_isSome (hv p (List.mem_cons_self p rest))
    obtain ⟨bs, hbs⟩ := ih (fun q hq => hv q (List.mem_cons_of_mem p hq))
    exact ⟨b ++ bs, by simp only [encodeFields, hb, hbs]⟩

lemma generate_binary_isSome {irs : List IRRecord}
    (hv : ∀ r ∈ irs, ∀ p ∈ r.fields, ∀ x : Int,
            p.snd = some x → 0 ≤ x ∧ x < 2 ^ 32) :
    ∃ bs, generate_binary irs = some bs := by
  induction irs with
  | nil => exact ⟨[], rfl⟩
  | cons r rest ih =>
    obtain ⟨b, hb⟩ := encodeFields_isSome (hv r (List.mem_cons_self r rest))
    obtain ⟨bs, hbs⟩ := ih (fun q hq => hv q (List.mem_cons_of_mem r hq))
    refine ⟨r.opcode % 256 :: b ++ bs, ?_⟩
    simp only [generate_binary, encodeRecord, hb, hbs]

lemma encodeFields_none {fs : List (String × Option Int)}
    {p : String × Option Int} {v : Int} (hp : p ∈ fs) (hv : p.snd = some v)
    (hbad : v < 0 ∨ 2 ^ 32 ≤ v) : encodeFields fs = none := by
  induction fs with
  | nil => cases hp
  | cons q rest ih =>
    rcases List.mem_cons.mp hp with rfl | hmem
    · have : encodeField p.snd = none := by
        rw [hv]
        simp only [encodeField, toBytesLE4]
        rw [if_neg]
        intro ⟨hle, hlt⟩
        rcases hbad with hneg | hbig
        · exact absurd hle (not_le.mpr hneg)
        · exact absurd hlt (not_lt.mpr hbig)
      simp only [encodeFields, this]
    · cases hq : encodeField q.snd with
      | none => simp only [encodeFields, hq]
      | some b => simp only [encodeFields, hq, ih hmem]

lemma generate_binary_none {irs : List IRRecord} {r : IRRecord}
    {p : String × Option Int} {v : Int} (hr : r ∈ irs) (hp : p ∈ r.fields)
    (hv : p.snd = some v) (hbad : v < 0 ∨ 2 ^ 32 ≤ v) :
    generate_binary irs = none := by
  induction irs with
  | nil => cases hr
  | cons s rest ih =>
    rcases List.mem_cons.mp hr with rfl | hmem
    · simp only [generate_binary, encodeRecord, encodeFields_none hp hv hbad]
    · cases hs : encodeRecord s with
      | none => simp only [generate_binary, hs]
      | some b => simp only [generate_binary, hs, ih hmem]

/-- C1 counterexample: the operand parser accepts `"-1"`, producing the
integer −1, yet `generate_binary` on a record holding that field value
errors (the uncaught `OverflowError` of `to_bytes`, modelled as `none`)
instead of returning a byte sequence. -/
theorem generate_binary_negative_counterexample :
    parse_value (some "-1") = Except.ok (some (-1)) ∧
    generate_binary [⟨"POPCT", 4, 1, [("A", some (-1))], 1⟩] = none := by
  exact ⟨by decide, by decide⟩

/-- C1 (amended): the encoder is not total on parser-producible values;
it succeeds exactly on records whose present field values all lie in
`[0, 2^32)`, and raises an error (OverflowError) as soon as any present
field value is negative or has 33 or more bits. -/
theorem generate_binary_range_characterization :
    (∀ irs : List IRRecord,
      (∀ r ∈ irs, ∀ p ∈ r.fields, ∀ x : Int,
          p.snd = some x → 0 ≤ x ∧ x < 2 ^ 32) →
      ∃ bs, generate_binary irs = some bs) ∧
    (∀ (irs : List IRRecord) (r : IRRecord), r ∈ irs →
      ∀ p ∈ r.fields, ∀ v : Int, p.snd = some v →
        (v < 0 ∨ 2 ^ 32 ≤ v) → generate_binary irs = none) :=
  ⟨fun _ hv => generate_binary_isSome hv,
   fun _ _ hr _ hp _ hv hbad => generate_binary_none hr hp hv hbad⟩

/-- C1 witness: both halves of the characterization applied at concrete
record lists. -/
theorem generate_binary_range_witness :
    (∃ bs, generate_binary [⟨"POPCT", 4, 1, [("A", some 3)], 1⟩] = some bs) ∧
    generate_binary [⟨"POPCT", 4, 1, [("A", some (2 ^ 32))], 1⟩] = none :=
  ⟨generate_binary_range_characterization.1 _ (by decide),
   generate_binary_range_characterization.2 _ _ (List.mem_singleton.mpr rfl)
     ("A", some (2 ^ 32)) (List.mem_singleton.mpr rfl) _ rfl
     (Or.inr (by decide))⟩

/-- The value stored for field `f` of `row` when its parse succeeds
(`none` both for a blank/absent cell and, vacuously, on a parse error). -/
def parsedOf (row : Row) (f : String) : Option Int :=
  match parse_value (rowGet row f (some "")) with
  | Except.ok v => v
  | Except.error _ => none

lemma parseFields_ok {row : Row} {fields : List String}
    (h : ∀ f ∈ fields, (parse_value (rowGet row f (some ""))).isOk) :
    parseFields row fields =
      Except.ok (fields.map (fun f => (f, parsedOf row f))) := by
  induction fields with
  | nil => rfl
  | cons f rest ih =>
    have hf := h f (List.mem_cons_self f rest)
    cases hv : parse_value (rowGet row f (some "")) with
    | error msg =>
      rw [hv] at hf
      exact absurd hf (by simp [Except.isOk, Except.toBool])
    | ok v =>
      have hrest := ih (fun g hg => h g (List.mem_cons_of_mem f hg))
      have hpv : parsedOf row f = v := by
        unfold parsedOf; rw [hv]
      simp only [parseFields, hv, hrest, List.map_cons, hpv]

lemma parseFields_error_shape {row : Row} {fields : List String} {e : AsmError}
    (h : parseFields row fields = Except.error e) : ∃ msg, e = AsmError.fieldParse msg := by
  induction fields with
  | nil => exact absurd h (by simp [parseFields])
  | cons f rest ih =>
    simp only [parseFields] at h
    cases hv : parse_value (rowGet row f (some "")) with
    | error msg =>
      rw [hv] at h
      simp only [Except.error.injEq] at h
      exact ⟨msg, h.symm⟩
    | ok v =>
      rw [hv] at h
      cases hrest : parseFields row rest with
      | error e2 =>
        rw [hrest] at h
        simp only [Except.error.injEq] at h
        subst h
        exact ih hrest
      | ok tl => rw [hrest] at h; exact absurd h (by simp)

lemma pyUpper_eq_empty {m : String} (h : pyUpper m = "") : m = "" := by
  cases m with
  | mk data =>
    have h2 : data.map Char.toUpper = [] := congrArg String.data h
    have h3 : data = [] := List.map_eq_nil_iff.mp h2
    rw [h3]

/-- C5: a row whose mnemonic cell uppercases to a catalog entry and whose
declared field cells all parse assembles successfully into a record whose
field list is exactly the descriptor's declared names, in the
descriptor's declared order, and an absent operand column contributes a
no-value field rather than an error. -/
theorem assemble_success_field_order (row : Row) (lineno : Nat) (m : String)
    (hm : rowGet row "mnemonic" (some "") = some m)
    (opcode size : Nat) (fields : List String)
    (hcat : catalogFind (pyUpper m) = some (opcode, size, fields))
    (hcells : ∀ f ∈ fields, (parse_value (rowGet row f (some ""))).isOk) :
    assemble_instruction row lineno =
      Except.ok ⟨pyUpper m, opcode, size,
        fields.map (fun f => (f, parsedOf row f)), lineno⟩ ∧
    (fields.map (fun f => (f, parsedOf row f))).map Prod.fst = fields ∧
    (∀ f ∈ fields,
      List.find? (fun p => p.fst = f) row = none → parsedOf row f = none) := by
  have hne : pyUpper m ≠ "" := by
    intro h0
    rw [h0] at hcat
    have h1 : catalogFind "" = none := by decide
    rw [h1] at hcat
    exact Option.noConfusion hcat
  refine ⟨?_, ?_, ?_⟩
  · simp only [assemble_instruction, hm]
    rw [if_neg hne]
    simp only [hcat, parseFields_ok hcells]
  · rw [List.map_map]
    exact List.map_id fields
  · intro f _ hnone
    have h1 : rowGet row f (some "") = some "" := by
      simp [rowGet, hnone]
    unfold parsedOf
    rw [h1]
    rfl

/-- C5 witness: a concrete `load_const` row with the `B` column missing
assembles to a record with all three declared fields in declared order
and `B` mapped to no-value. -/
theorem assemble_success_field_order_witness :
    assemble_instruction
      [("mnemonic", some "load_const"), ("A", some "1"), ("CONST", some "0x10")] 5 =
      Except.ok ⟨"LOAD_CONST", 1, 5,
        [("A", some 1), ("B", none), ("CONST", some 16)], 5⟩ :=
  (assemble_success_field_order
    [("mnemonic", some "load_const"), ("A", some "1"), ("CONST", some "0x10")]
    5 "load_const" rfl 1 5 ["A", "B", "CONST"] (by decide) (by decide)).1

/-- C6 counterexample: a row whose mnemonic cell is Python `None` (as the
CSV reader produces for a short data row) raises the `AttributeError` of
`None.upper()`, not `EmptyMnemonicError`. -/
theorem none_mnemonic_counterexample :
    assemble_instruction [("mnemonic", none)] 3 = Except.error AsmError.noneUpper ∧
    assemble_instruction [("mnemonic", none)] 3 ≠
      Except.error (AsmError.emptyMnemonic 3) := by
  exact ⟨by decide, by decide⟩

/-- C6 (amended): `assemble_instruction` raises `EmptyMnemonicError`
exactly when the mnemonic key is absent or holds the empty string — the
function itself does not trim, so a whitespace-only raw value triggers it
only after the row normalizer has stripped it to the empty string (second
conjunct), and a `None` mnemonic cell raises a different failure
(`AttributeError`). -/
theorem empty_mnemonic_characterization :
    (∀ (row : Row) (n : Nat),
      assemble_instruction row n = Except.error (AsmError.emptyMnemonic n) ↔
        rowGet row "mnemonic" (some "") = some "") ∧
    (∀ (s : String) (n : Nat) (row : Row), pyStrip s = "" →
      assemble_instruction (("mnemonic", some (pyStrip s)) :: row) n =
        Except.error (AsmError.emptyMnemonic n)) := by
  have main : ∀ (row : Row) (n : Nat),
      assemble_instruction row n = Except.error (AsmError.emptyMnemonic n) ↔
        rowGet row "mnemonic" (some "") = some "" := by
    intro row n
    constructor
    · intro h
      cases hg : rowGet row "mnemonic" (some "") with
      | none => simp only [assemble_instruction, hg] at h; simp at h
      | some m0 =>
        simp only [assemble_instruction, hg] at h
        by_cases he : pyUpper m0 = ""
        · exact congrArg some (pyUpper_eq_empty he)
        · rw [if_neg he] at h
          cases hc : catalogFind (pyUpper m0) with
          | none => rw [hc] at h; simp at h
          | some desc =>
            rw [hc] at h
            obtain ⟨opcode, size, fields⟩ := desc
            cases hp : parseFields row fields with
            | error e =>
              simp only [hp] at h
              simp only [Except.error.injEq] at h
              obtain ⟨msg, rfl⟩ := parseFields_error_shape hp
              exact absurd h (by simp)
            | ok pf => simp only [hp] at h; simp at h
    · intro hg
      simp only [assemble_instruction, hg]
      rfl
  refine ⟨main, fun s n row hs => ?_⟩
  apply (main _ n).mpr
  rw [hs]
  rfl

/-- C6 witness: the characterization applied to a concrete row holding an
empty mnemonic string. -/
theorem empty_mnemonic_characterization_witness :
    assemble_instruction [("mnemonic", some "")] 2 =
      Except.error (AsmError.emptyMnemonic 2) :=
  (empty_mnemonic_characterization.1 [("mnemonic", some "")] 2).mpr (by decide)

/-- C7: every catalog mnemonic is its own uppercase form, a row whose
mnemonic uppercases to a catalog entry resolves to that descriptor (it
can only fail later with a field-parse error, and on success the record
carries that descriptor's opcode, size and its fields), and a non-empty
mnemonic whose uppercase form is not in the catalog raises
`UnknownMnemonicError` naming the 1-based line number. -/
theorem mnemonic_case_insensitive_lookup :
    (∀ p ∈ INSTRUCTION_SET, pyUpper p.fst = p.fst) ∧
    (∀ (row : Row) (n : Nat) (m : String),
      rowGet row "mnemonic" (some "") = some m →
      ∀ (opcode size : Nat) (fields : List String),
        catalogFind (pyUpper m) = some (opcode, size, fields) →
        (∃ msg, assemble_instruction row n =
            Except.error (AsmError.fieldParse msg)) ∨
        (∃ pf, assemble_instruction row n =
            Except.ok ⟨pyUpper m, opcode, size, pf, n⟩)) ∧
    (∀ (row : Row) (n : Nat) (m : String),
      rowGet row "mnemonic" (some "") = some m →
      pyUpper m ≠ "" → catalogFind (pyUpper m) = none →
      assemble_instruction row n =
        Except.error (AsmError.unknownMnemonic (pyUpper m) n)) := by
  refine ⟨by decide, ?_, ?_⟩
  · intro row n m hm opcode size fields hcat
    have hne : pyUpper m ≠ "" := by
      intro h0
      rw [h0] at hcat
      have h1 : catalogFind "" = none := by decide
      rw [h1] at hcat
      exact Option.noConfusion hcat
    cases hp : parseFields row fields with
    | error e =>
      obtain ⟨msg, rfl⟩ := parseFields_error_shape hp
      refine Or.inl ⟨msg, ?_⟩
      simp only [assemble_instruction, hm]
      rw [if_neg hne]
      simp only [hcat, hp]
    | ok pf =>
      refine Or.inr ⟨pf, ?_⟩
      simp only [assemble_instruction, hm]
      rw [if_neg hne]
      simp only [hcat, hp]
  · intro row n m hm hne hcat
    simp only [assemble_instruction, hm]
    rw [if_neg hne]
    simp only [hcat]

/-- C7 witness: a lowercase mnemonic resolves to its descriptor, and an
unknown mnemonic raises the unknown-mnemonic error with its line
number. -/
theorem mnemonic_case_insensitive_lookup_witness :
    ((∃ msg, assemble_instruction [("mnemonic", some "popct")] 4 =
        Except.error (AsmError.fieldParse msg)) ∨
     (∃ pf, assemble_instruction [("mnemonic", some "popct")] 4 =
        Except.ok ⟨"POPCT", 4, 1, pf, 4⟩)) ∧
    assemble_instruction [("mnemonic", some "FOO")] 2 =
      Except.error (AsmError.unknownMnemonic "FOO" 2) :=
  ⟨mnemonic_case_insensitive_lookup.2.1 [("mnemonic", some "popct")] 4 "popct"
      rfl 4 1 ["A"] (by decide),
   mnemonic_case_insensitive_lookup.2.2 [("mnemonic", some "FOO")] 2 "FOO"
      rfl (by decide) (by decide)⟩

lemma assembleAll_first_error {rows : List Row} {k j : Nat} {rowj : Row}
    {e : AsmError} (hj : rows.get? j = some rowj)
    (hok : ∀ (m : Nat), m < j → ∀ row', rows.get? m = some row' →
      (assemble_instruction row' (k + m)).isOk)
    (herr : assemble_instruction rowj (k + j) = Except.error e) :
    assembleAll rows k = Except.error (k + j, e) := by
  induction rows generalizing k j with
  | nil => simp at hj
  | cons r rest ih =>
    cases j with
    | zero =>
      have hj' : r = rowj := by simpa using hj
      subst hj'
      rw [Nat.add_zero] at herr
      rw [Nat.add_zero]
      simp only [assembleAll, herr]
    | succ j' =>
      have h0 := hok 0 (Nat.succ_pos j') r rfl
      rw [Nat.add_zero] at h0
      cases hr : assemble_instruction r k with
      | error e0 =>
        rw [hr] at h0
        exact absurd h0 (by simp [Except.isOk, Except.toBool])
      | ok ir =>
        have hj2 : rest.get? j' = some rowj := hj
        have herr2 : assemble_instruction rowj (k + 1 + j') = Except.error e := by
          rwa [show k + 1 + j' = k + (j' + 1) by omega]
        have hok2 : ∀ (m : Nat), m < j' → ∀ row', rest.get? m = some row' →
            (assemble_instruction row' (k + 1 + m)).isOk := by
          intro m hm row' hrow
          have hx := hok (m + 1) (Nat.succ_lt_succ hm) row' hrow
          rwa [show k + (m + 1) = k + 1 + m by omega] at hx
        have hrec := ih hj2 hok2 herr2
        rw [show k + 1 + j' = k + (j' + 1) by omega] at hrec
        simp only [assembleAll, hr, hrec]

/-- C3 counterexample: on a single row `POPCT` with operand `-1` every
row assembles, yet the run does not produce the binary with exit code 0 —
`generate_binary` raises an uncaught `OverflowError` and nothing is
written. -/
theorem pipeline_overflow_counterexample :
    (assemble_instruction [("mnemonic", some "POPCT"), ("A", some "-1")] 1).isOk = true ∧
    pipeline [[("mnemonic", some "POPCT"), ("A", some "-1")]] =
      MainOutcome.encodeCrash := by
  exact ⟨by decide, by decide⟩

/-- C3 (amended): the run is whole-batch-or-nothing up to encoder range
errors — if row `j` (0-based; line `j+1`) is the first row that fails to
assemble, the run prints exactly the one error line
`"[ERROR] line <j+1>: <message>"`, exits with code 1 and writes nothing;
if every row assembles and every parsed field value lies in `[0, 2^32)`,
the complete binary is produced with exit code 0 (overflowing values
instead crash the encoder with nothing written). -/
theorem pipeline_whole_batch (rows : List Row) :
    (∀ (j : Nat) (rowj : Row) (e : AsmError), rows.get? j = some rowj →
      (∀ (m : Nat), m < j → ∀ row', rows.get? m = some row' →
        (assemble_instruction row' (m + 1)).isOk) →
      assemble_instruction rowj (j + 1) = Except.error e →
      pipeline rows = MainOutcome.rowFailure (j + 1)
        ("[ERROR] line " ++ toString (j + 1) ++ ": " ++ errMsg e)) ∧
    (∀ irs, assembleAll rows 1 = Except.ok irs →
      (∀ r ∈ irs, ∀ p ∈ r.fields, ∀ x : Int,
        p.snd = some x → 0 ≤ x ∧ x < 2 ^ 32) →
      ∃ b, generate_binary irs = some b ∧
        pipeline rows = MainOutcome.okWrite b) := by
  constructor
  · intro j rowj e hj hok herr
    have hok1 : ∀ (m : Nat), m < j → ∀ row', rows.get? m = some row' →
        (assemble_instruction row' (1 + m)).isOk := by
      intro m hm row' hrow
      have hx := hok m hm row' hrow
      rwa [show m + 1 = 1 + m by omega] at hx
    have herr1 : assemble_instruction rowj (1 + j) = Except.error e := by
      rwa [show 1 + j = j + 1 by omega]
    have hall := assembleAll_first_error hj hok1 herr1
    rw [show (1 : Nat) + j = j + 1 by omega] at hall
    simp only [pipeline, hall]
    rfl
  · intro irs hall hv
    obtain ⟨b, hb⟩ := generate_binary_isSome hv
    exact ⟨b, hb, by simp only [pipeline, hall, hb]⟩

/-- C3 witness: both halves applied concretely — a two-row input whose
second row has an unknown mnemonic fails with exactly the line-2 error
line, and a valid one-row input produces its 5-byte binary. -/
theorem pipeline_whole_batch_witness :
    pipeline [[("mnemonic", some "POPCT"), ("A", some "3")],
              [("mnemonic", some "FOO")]] =
      MainOutcome.rowFailure 2 "[ERROR] line 2: Unknown mnemonic 'FOO' at line 2" ∧
    ∃ b, generate_binary [⟨"POPCT", 4, 1, [("A", some 3)], 1⟩] = some b ∧
      pipeline [[("mnemonic", some "POPCT"), ("A", some "3")]] =
        MainOutcome.okWrite b := by
  constructor
  · exact (pipeline_whole_batch _).1 1 [("mnemonic", some "FOO")]
      (AsmError.unknownMnemonic "FOO" 2) rfl
      (by
        intro m hm row' hrow
        have hm0 : m = 0 := by omega
        subst hm0
        have : row' = [("mnemonic", some "POPCT"), ("A", some "3")] := by
          simpa using hrow.symm
        subst this
        decide)
      (by decide)
  · exact (pipeline_whole_batch _).2 [⟨"POPCT", 4, 1, [("A", some 3)], 1⟩]
      (by decide) (by decide)

/-- Value denoted by a digit string in the given base (underscore-free
inputs; on other characters the digit map defaults to 0). -/
def digitsVal (dv : Char → Option Nat) (base : Nat) (cs : List Char) : Nat :=
  cs.foldl (fun a c => a * base + (dv c).getD 0) 0

/-- Split an optional leading sign off a literal, per the spec's
"optional leading sign": `true` means negative. -/
def stripSign : List Char → Bool × List Char
  | [] => (false, [])
  | c :: cs =>
    if c = '+' then (false, cs)
    else if c = '-' then (true, cs)
    else (false, c :: cs)

/-- Apply a sign flag to a magnitude. -/
def applySign (neg : Bool) (n : Nat) : Int :=
  if neg then -(n : Int) else (n : Int)


lemma digitPartAux_cons_digit {dv : Char → Option Nat} {base acc : Nat}
    {c : Char} {cs : List Char} {d : Nat} (hne : ¬ c = '_')
    (hd : dv c = some d) :
    digitPartAux dv base acc (c :: cs) =
      digitPartAux dv base (acc * base + d) cs := by
  rw [digitPartAux.eq_def]
  simp only [hd, if_neg hne]

lemma digitPartAux_cons_bad {dv : Char → Option Nat} {base acc : Nat}
    {c : Char} {cs : List Char} (hne : ¬ c = '_') (hd : dv c = none) :
    digitPartAux dv base acc (c :: cs) = none := by
  rw [digitPartAux.eq_def]
  simp only [hd, if_neg hne]

lemma digitPartAux_und_digit {dv : Char → Option Nat} {base acc : Nat}
    {c2 : Char} {cs2 : List Char} {d : Nat} (hd : dv c2 = some d) :
    digitPartAux dv base acc ('_' :: c2 :: cs2) =
      digitPartAux dv base (acc * base + d) cs2 := by
  rw [digitPartAux.eq_def]
  simp only [hd, ite_true, if_pos]

lemma digitPartAux_und_bad {dv : Char → Option Nat} {base acc : Nat}
    {c2 : Char} {cs2 : List Char} (hd : dv c2 = none) :
    digitPartAux dv base acc ('_' :: c2 :: cs2) = none := by
  rw [digitPartAux.eq_def]
  simp only [hd, ite_true, if_pos]

lemma digitPartAux_und_nil {dv : Char → Option Nat} {base acc : Nat} :
    digitPartAux dv base acc ['_'] = none := rfl

lemma digitPartAux_value {dv : Char → Option Nat} {base : Nat}
    (hund : dv '_' = none) :
    ∀ (acc : Nat) (cs : List Char) (n : Nat),
      digitPartAux dv base acc cs = some n →
      n = (cs.filter (fun c => ¬ c = '_')).foldl
            (fun a c => a * base + (dv c).getD 0) acc := by
  intro acc cs
  induction acc, cs using digitPartAux.induct dv base with
  | case1 acc =>
    intro n h
    have h2 : acc = n := by simpa [digitPartAux] using h
    simp [← h2]
  | case2 acc =>
    intro n h
    rw [digitPartAux_und_nil] at h
    exact Option.noConfusion h
  | case3 acc c2 cs2 d hd ih =>
    intro n h
    have hc2 : ¬ c2 = '_' := by
      intro h2; rw [h2, hund] at hd; exact Option.noConfusion hd
    rw [digitPartAux_und_digit hd] at h
    have hv := ih n h
    simp only [List.filter_cons, decide_eq_true_eq]
    rw [if_neg (by simp), if_pos (by simpa using hc2)]
    simp only [List.foldl_cons, hd, Option.getD_some]
    exact hv
  | case4 acc c2 cs2 hd =>
    intro n h
    rw [digitPartAux_und_bad hd] at h
    exact Option.noConfusion h
  | case5 acc c2 cs2 hne d hd ih =>
    intro n h
    rw [digitPartAux_cons_digit hne hd] at h
    have hv := ih n h
    simp only [List.filter_cons, decide_eq_true_eq]
    rw [if_pos (by simpa using hne)]
    simp only [List.foldl_cons, hd, Option.getD_some]
    exact hv
  | case6 acc c2 cs2 hne hd =>
    intro n h
    rw [digitPartAux_cons_bad hne hd] at h
    exact Option.noConfusion h

lemma digitPartAux_all_digits {dv : Char → Option Nat} {base : Nat}
    (hund : dv '_' = none) :
    ∀ (acc : Nat) (cs : List Char), (∀ c ∈ cs, (dv c).isSome) →
      digitPartAux dv base acc cs =
        some (cs.foldl (fun a c => a * base + (dv c).getD 0) acc) := by
  intro acc cs
  induction cs generalizing acc with
  | nil => intro _; rfl
  | cons c cs' ih =>
    intro h
    have hc := h c (List.mem_cons_self c cs')
    have hcne : ¬ c = '_' := by
      intro h2; rw [h2, hund] at hc; simp at hc
    cases hdv : dv c with
    | none => rw [hdv] at hc; simp at hc
    | some d =>
      rw [digitPartAux_cons_digit hcne hdv]
      simp only [List.foldl_cons, hdv, Option.getD_some]
      exact ih (acc * base + d) (fun c' hc' => h c' (List.mem_cons_of_mem c hc'))

lemma digitPartAux_bad {dv : Char → Option Nat} {base : Nat} {c0 : Char}
    (hdv0 : dv c0 = none) (hne0 : ¬ c0 = '_') :
    ∀ (acc : Nat) (cs : List Char), c0 ∈ cs →
      digitPartAux dv base acc cs = none := by
  intro acc cs
  induction acc, cs using digitPartAux.induct dv base with
  | case1 acc => intro hmem; cases hmem
  | case2 acc => intro _; exact digitPartAux_und_nil
  | case3 acc c2 cs2 d hd ih =>
    intro hmem
    rw [digitPartAux_und_digit hd]
    rcases List.mem_cons.mp hmem with h1 | hmem2
    · exact absurd h1 hne0
    · rcases List.mem_cons.mp hmem2 with h2 | hmem3
      · rw [h2, hd] at hdv0; exact Option.noConfusion hdv0
      · exact ih hmem3
  | case4 acc c2 cs2 hd =>
    intro _
    exact digitPartAux_und_bad hd
  | case5 acc c2 cs2 hne d hd ih =>
    intro hmem
    rw [digitPartAux_cons_digit hne hd]
    rcases List.mem_cons.mp hmem with h1 | hmem2
    · rw [h1, hd] at hdv0; exact Option.noConfusion hdv0
    · exact ih hmem2
  | case6 acc c2 cs2 hne hd =>
    intro _
    exact digitPartAux_cons_bad hne hd

lemma hund10 : digitVal10 '_' = none := by decide

lemma hund16 : digitVal16 '_' = none := by decide

lemma digitPart_cons_digit {dv : Char → Option Nat} {base : Nat} {c : Char}
    {cs : List Char} {d : Nat} (hd : dv c = some d) :
    digitPart dv base (c :: cs) = digitPartAux dv base d cs := by
  rw [digitPart.eq_def]
  simp only [hd]

lemma digitPart_cons_bad0 {dv : Char → Option Nat} {base : Nat} {c : Char}
    {cs : List Char} (hd : dv c = none) :
    digitPart dv base (c :: cs) = none := by
  rw [digitPart.eq_def]
  simp only [hd]

lemma digitPart_value {dv : Char → Option Nat} {base : Nat}
    (hund : dv '_' = none) {cs : List Char} {n : Nat}
    (h : digitPart dv base cs = some n) :
    n = digitsVal dv base (cs.filter (fun c => ¬ c = '_')) := by
  cases cs with
  | nil => exact Option.noConfusion h
  | cons c cs' =>
    cases hdv : dv c with
    | none => rw [digitPart_cons_bad0 hdv] at h; exact Option.noConfusion h
    | some d =>
      rw [digitPart_cons_digit hdv] at h
      have hv := digitPartAux_value hund d cs' n h
      have hcne : ¬ c = '_' := by
        intro h2; rw [h2, hund] at hdv; exact Option.noConfusion hdv
      simp only [List.filter_cons, decide_eq_true_eq]
      rw [if_pos (by simpa using hcne)]
      simp only [digitsVal, List.foldl_cons, hdv, Option.getD_some,
        Nat.zero_mul, Nat.zero_add]
      exact hv

lemma digitPart_all_digits {dv : Char → Option Nat} {base : Nat}
    (hund : dv '_' = none) {cs : List Char} (hne : cs ≠ [])
    (h : ∀ c ∈ cs, (dv c).isSome) :
    digitPart dv base cs = some (digitsVal dv base cs) := by
  cases cs with
  | nil => exact absurd rfl hne
  | cons c cs' =>
    have hc := h c (List.mem_cons_self c cs')
    cases hdv : dv c with
    | none => rw [hdv] at hc; simp at hc
    | some d =>
      rw [digitPart_cons_digit hdv]
      rw [digitPartAux_all_digits hund d cs'
        (fun c' hc' => h c' (List.mem_cons_of_mem c hc'))]
      simp only [digitsVal, List.foldl_cons, hdv, Option.getD_some,
        Nat.zero_mul, Nat.zero_add]

lemma digitPart_bad {dv : Char → Option Nat} {base : Nat} {c0 : Char}
    {cs : List Char} (hmem : c0 ∈ cs) (hdv0 : dv c0 = none)
    (hne0 : ¬ c0 = '_') :
    digitPart dv base cs = none := by
  cases cs with
  | nil => cases hmem
  | cons c cs' =>
    cases hdv : dv c with
    | none => exact digitPart_cons_bad0 hdv
    | some d =>
      rw [digitPart_cons_digit hdv]
      rcases List.mem_cons.mp hmem with h1 | h2
      · rw [h1, hdv] at hdv0; exact Option.noConfusion hdv0
      · exact digitPartAux_bad hdv0 hne0 d cs' h2

lemma hexTail_cons {c : Char} {cs : List Char} :
    hexTail (c :: cs) =
      if c = '_' then digitPart digitVal16 16 cs
      else digitPart digitVal16 16 (c :: cs) := by
  rw [hexTail.eq_def]

lemma hexTail_value {cs : List Char} {n : Nat} (h : hexTail cs = some n) :
    n = digitsVal digitVal16 16 (cs.filter (fun c => ¬ c = '_')) := by
  cases cs with
  | nil => exact Option.noConfusion h
  | cons c cs' =>
    rw [hexTail_cons] at h
    by_cases hc : c = '_'
    · rw [if_pos hc] at h
      have := digitPart_value hund16 h
      subst hc
      simpa [List.filter_cons] using this
    · rw [if_neg hc] at h
      exact digitPart_value hund16 h

lemma hexTail_all_digits {cs : List Char} (hne : cs ≠ [])
    (h : ∀ c ∈ cs, (digitVal16 c).isSome) :
    hexTail cs = some (digitsVal digitVal16 16 cs) := by
  cases cs with
  | nil => exact absurd rfl hne
  | cons c cs' =>
    have hc := h c (List.mem_cons_self c cs')
    have hcne : ¬ c = '_' := by
      intro h2; rw [h2, hund16] at hc; simp at hc
    rw [hexTail_cons, if_neg hcne]
    exact digitPart_all_digits hund16 (by simp) h

lemma hexTail_bad {cs : List Char} {c0 : Char} (hmem : c0 ∈ cs)
    (hdv0 : digitVal16 c0 = none) (hne0 : ¬ c0 = '_') :
    hexTail cs = none := by
  cases cs with
  | nil => cases hmem
  | cons c cs' =>
    rw [hexTail_cons]
    by_cases hc : c = '_'
    · rw [if_pos hc]
      rcases List.mem_cons.mp hmem with h1 | h2
      · rw [hc] at h1; exact absurd h1 hne0
      · exact digitPart_bad h2 hdv0 hne0
    · rw [if_neg hc]
      exact digitPart_bad hmem hdv0 hne0

lemma string_toList_cons_ne_empty {t : String} {c : Char} {cs : List Char}
    (h : t.toList = c :: cs) : t ≠ "" := by
  intro h0
  rw [h0] at h
  exact List.noConfusion h

lemma string_ne_empty_toList {t : String} (h : t ≠ "") :
    ∃ c cs, t.toList = c :: cs := by
  cases t with
  | mk data =>
    cases data with
    | nil => exact absurd rfl h
    | cons c cs => exact ⟨c, cs, rfl⟩

lemma startsWith2_toList {t : String} {c1 c2 : Char}
    (h : startsWith2 t c1 c2) : ∃ rest, t.toList = c1 :: c2 :: rest := by
  unfold startsWith2 at h
  cases ht : t.toList with
  | nil => rw [ht] at h; exact absurd h (by simp)
  | cons a tail =>
    cases tail with
    | nil => rw [ht] at h; exact absurd h (by simp)
    | cons b rest =>
      rw [ht] at h
      simp only [decide_eq_true_eq] at h
      obtain ⟨h1, h2⟩ := h
      exact ⟨rest, by rw [h1, h2]⟩

lemma parse_value_hex_branch {s : String} (ht : pyStrip s ≠ "")
    (hsw : startsWith2 (pyStrip s) '0' 'x' ∨ startsWith2 (pyStrip s) '0' 'X') :
    parse_value (some s) =
      match pyInt16 (pyStrip s) with
      | some n => Except.ok (some n)
      | none => Except.error
          ("invalid literal for int() with base 16: '" ++ pyStrip s ++ "'") := by
  simp only [parse_value]
  rw [if_neg ht, if_pos hsw]

lemma parse_value_dec_branch {s : String} (ht : pyStrip s ≠ "")
    (hsw : ¬(startsWith2 (pyStrip s) '0' 'x' ∨ startsWith2 (pyStrip s) '0' 'X')) :
    parse_value (some s) =
      match pyInt10 (pyStrip s) with
      | some n => Except.ok (some n)
      | none => Except.error
          ("invalid literal for int() with base 10: '" ++ pyStrip s ++ "'") := by
  simp only [parse_value]
  rw [if_neg ht, if_neg hsw]

lemma pyInt16_hex {t : String} {x : Char} {rest : List Char}
    (hlist : t.toList = '0' :: x :: rest) (hx : x = 'x' ∨ x = 'X') :
    pyInt16 t = (hexTail rest).map Int.ofNat := by
  rcases hx with rfl | rfl <;> (rw [pyInt16.eq_def, hlist]; rfl)

lemma pyInt10_eq_cons {t : String} {c : Char} {cs : List Char}
    (hlist : t.toList = c :: cs) :
    pyInt10 t =
      (if c = '+' then (digitPart digitVal10 10 cs).map Int.ofNat
       else if c = '-' then (digitPart digitVal10 10 cs).map (fun n => -Int.ofNat n)
       else (digitPart digitVal10 10 (c :: cs)).map Int.ofNat) := by
  rw [pyInt10.eq_def, hlist]

lemma parse_value_hex_cases (s : String)
    (hsw : startsWith2 (pyStrip s) '0' 'x' ∨ startsWith2 (pyStrip s) '0' 'X') :
    ((∃ c ∈ (pyStrip s).toList.drop 2, digitVal16 c = none ∧ ¬ c = '_') →
      ∃ msg, parse_value (some s) = Except.error msg) ∧
    (((pyStrip s).toList.drop 2 ≠ [] ∧
      ∀ c ∈ (pyStrip s).toList.drop 2, (digitVal16 c).isSome) →
      parse_value (some s) =
        Except.ok (some ((digitsVal digitVal16 16 ((pyStrip s).toList.drop 2) : Nat) : Int))) ∧
    (∀ n : Int, parse_value (some s) = Except.ok (some n) →
      n = ((digitsVal digitVal16 16
            (((pyStrip s).toList.drop 2).filter (fun c => ¬ c = '_')) : Nat) : Int)) := by
  have hx : ∃ x rest, (pyStrip s).toList = '0' :: x :: rest ∧ (x = 'x' ∨ x = 'X') := by
    rcases hsw with h | h
    · obtain ⟨rest, hl⟩ := startsWith2_toList h
      exact ⟨'x', rest, hl, Or.inl rfl⟩
    · obtain ⟨rest, hl⟩ := startsWith2_toList h
      exact ⟨'X', rest, hl, Or.inr rfl⟩
  obtain ⟨x, rest, hlist, hxx⟩ := hx
  have ht : pyStrip s ≠ "" := string_toList_cons_ne_empty hlist
  have hdrop : (pyStrip s).toList.drop 2 = rest := by rw [hlist]; rfl
  have hred := parse_value_hex_branch ht hsw
  have h16 := pyInt16_hex hlist hxx
  refine ⟨?_, ?_, ?_⟩
  · rintro ⟨c0, hc0mem, hc0none, hc0ne⟩
    rw [hdrop] at hc0mem
    have hbad : hexTail rest = none := hexTail_bad hc0mem hc0none hc0ne
    refine ⟨"invalid literal for int() with base 16: '" ++ pyStrip s ++ "'", ?_⟩
    rw [hred, h16, hbad]
    rfl
  · rintro ⟨hne, hall⟩
    rw [hdrop] at hne hall
    have hsome := hexTail_all_digits hne hall
    rw [hred, h16, hsome, hdrop]
    rfl
  · intro n h
    rw [hred, h16] at h
    cases hht : hexTail rest with
    | none => rw [hht] at h; exact absurd h (by simp)
    | some m =>
      rw [hht] at h
      simp only [Option.map_some', Except.ok.injEq, Option.some.injEq] at h
      rw [hdrop, ← h]
      exact congrArg (fun k : Nat => (k : Int)) (hexTail_value hht)

lemma parse_value_dec_cases (s : String) (ht : pyStrip s ≠ "")
    (hnsw : ¬(startsWith2 (pyStrip s) '0' 'x' ∨ startsWith2 (pyStrip s) '0' 'X')) :
    ((∃ c ∈ (stripSign (pyStrip s).toList).2, digitVal10 c = none ∧ ¬ c = '_') →
      ∃ msg, parse_value (some s) = Except.error msg) ∧
    (((stripSign (pyStrip s).toList).2 ≠ [] ∧
      ∀ c ∈ (stripSign (pyStrip s).toList).2, (digitVal10 c).isSome) →
      parse_value (some s) =
        Except.ok (some (applySign (stripSign (pyStrip s).toList).1
          (digitsVal digitVal10 10 (stripSign (pyStrip s).toList).2)))) ∧
    (∀ n : Int, parse_value (some s) = Except.ok (some n) →
      n = applySign (stripSign (pyStrip s).toList).1
            (digitsVal digitVal10 10
              ((stripSign (pyStrip s).toList).2.filter (fun c => ¬ c = '_')))) := by
  obtain ⟨c, cs, hlist⟩ := string_ne_empty_toList ht
  have hred := parse_value_dec_branch ht hnsw
  have h10 := pyInt10_eq_cons hlist
  by_cases hplus : c = '+'
  · subst hplus
    rw [if_pos rfl] at h10
    have hss : stripSign ((pyStrip s).toList) = (false, cs) := by
      rw [hlist]; rfl
    rw [hss]
    refine ⟨?_, ?_, ?_⟩
    · rintro ⟨c0, hmem, hnone, hne⟩
      have hmem' : c0 ∈ cs := hmem
      refine ⟨"invalid literal for int() with base 10: '" ++ pyStrip s ++ "'", ?_⟩
      rw [hred, h10, digitPart_bad hmem' hnone hne]
      rfl
    · rintro ⟨hne, hall⟩
      have hne' : cs ≠ [] := hne
      have hall' : ∀ c ∈ cs, (digitVal10 c).isSome := hall
      rw [hred, h10, digitPart_all_digits hund10 hne' hall']
      rfl
    · intro n h
      rw [hred, h10] at h
      cases hdp : digitPart digitVal10 10 cs with
      | none => rw [hdp] at h; exact absurd h (by simp)
      | some m =>
        rw [hdp] at h
        simp only [Option.map_some', Except.ok.injEq, Option.some.injEq] at h
        rw [← h]
        exact congrArg Int.ofNat (digitPart_value hund10 hdp)
  · by_cases hminus : c = '-'
    · subst hminus
      rw [if_neg (by decide), if_pos rfl] at h10
      have hss : stripSign ((pyStrip s).toList) = (true, cs) := by
        rw [hlist]; rfl
      rw [hss]
      refine ⟨?_, ?_, ?_⟩
      · rintro ⟨c0, hmem, hnone, hne⟩
        have hmem' : c0 ∈ cs := hmem
        refine ⟨"invalid literal for int() with base 10: '" ++ pyStrip s ++ "'", ?_⟩
        rw [hred, h10, digitPart_bad hmem' hnone hne]
        rfl
      · rintro ⟨hne, hall⟩
        have hne' : cs ≠ [] := hne
        have hall' : ∀ c ∈ cs, (digitVal10 c).isSome := hall
        rw [hred, h10, digitPart_all_digits hund10 hne' hall']
        rfl
      · intro n h
        rw [hred, h10] at h
        cases hdp : digitPart digitVal10 10 cs with
        | none => rw [hdp] at h; exact absurd h (by simp)
        | some m =>
          rw [hdp] at h
          simp only [Option.map_some', Except.ok.injEq, Option.some.injEq] at h
          rw [← h]
          exact congrArg (fun k => -Int.ofNat k) (digitPart_value hund10 hdp)
    · rw [if_neg hplus, if_neg hminus] at h10
      have hss : stripSign ((pyStrip s).toList) = (false, c :: cs) := by
        rw [hlist]
        simp only [stripSign, if_neg hplus, if_neg hminus]
      rw [hss]
      refine ⟨?_, ?_, ?_⟩
      · rintro ⟨c0, hmem, hnone, hne⟩
        have hmem' : c0 ∈ c :: cs := hmem
        refine ⟨"invalid literal for int() with base 10: '" ++ pyStrip s ++ "'", ?_⟩
        rw [hred, h10, digitPart_bad hmem' hnone hne]
        rfl
      · rintro ⟨hne, hall⟩
        have hall' : ∀ c' ∈ c :: cs, (digitVal10 c').isSome := hall
        rw [hred, h10,
          digitPart_all_digits hund10 (List.cons_ne_nil c cs) hall']
        rfl
      · intro n h
        rw [hred, h10] at h
        cases hdp : digitPart digitVal10 10 (c :: cs) with
        | none => rw [hdp] at h; exact absurd h (by simp)
        | some m =>
          rw [hdp] at h
          simp only [Option.map_some', Except.ok.injEq, Option.some.injEq] at h
          rw [← h]
          exact congrArg Int.ofNat (digitPart_value hund10 hdp)

/-- C2 counterexample: `"1_0"` contains an embedded underscore — a
non-digit character that is not a leading sign — yet `parse_value`
accepts it and returns 10 instead of raising an error (Python `int`
allows underscore digit separators). -/
theorem parse_value_underscore_counterexample :
    parse_value (some "1_0") = Except.ok (some 10) ∧
    '_' ∈ String.toList "1_0" ∧ digitVal10 '_' = none ∧
    ¬ '_' = '+' ∧ ¬ '_' = '-' := by
  exact ⟨by decide, by decide, by decide, by decide, by decide⟩

/-- C2 (amended): `parse_value` behaves as the claim states except that
underscores are additionally tolerated as Python digit separators:
absent input or a string that strips to empty is no-value; a stripped
string starting `0x`/`0X` parses base 16 — any character after the
prefix that is neither a hex digit nor an underscore is an error, an
all-hex-digit remainder yields its base-16 value, and any successful
parse yields the base-16 value of the remainder with underscores
ignored; any other non-empty string parses base 10 after an optional
leading sign — any body character that is neither a digit nor an
underscore is an error, an all-digit body yields its signed base-10
value, and any successful parse yields the signed base-10 value of the
body with underscores ignored. -/
theorem parse_value_characterization :
    (parse_value none = Except.ok none) ∧
    (∀ s : String, pyStrip s = "" → parse_value (some s) = Except.ok none) ∧
    (∀ s : String,
      (startsWith2 (pyStrip s) '0' 'x' ∨ startsWith2 (pyStrip s) '0' 'X') →
      ((∃ c ∈ (pyStrip s).toList.drop 2, digitVal16 c = none ∧ ¬ c = '_') →
        ∃ msg, parse_value (some s) = Except.error msg) ∧
      (((pyStrip s).toList.drop 2 ≠ [] ∧
        ∀ c ∈ (pyStrip s).toList.drop 2, (digitVal16 c).isSome) →
        parse_value (some s) =
          Except.ok (some ((digitsVal digitVal16 16
            ((pyStrip s).toList.drop 2) : Nat) : Int))) ∧
      (∀ n : Int, parse_value (some s) = Except.ok (some n) →
        n = ((digitsVal digitVal16 16
              (((pyStrip s).toList.drop 2).filter (fun c => ¬ c = '_')) : Nat) : Int))) ∧
    (∀ s : String, pyStrip s ≠ "" →
      ¬(startsWith2 (pyStrip s) '0' 'x' ∨ startsWith2 (pyStrip s) '0' 'X') →
      ((∃ c ∈ (stripSign (pyStrip s).toList).2, digitVal10 c = none ∧ ¬ c = '_') →
        ∃ msg, parse_value (some s) = Except.error msg) ∧
      (((stripSign (pyStrip s).toList).2 ≠ [] ∧
        ∀ c ∈ (stripSign (pyStrip s).toList).2, (digitVal10 c).isSome) →
        parse_value (some s) =
          Except.ok (some (applySign (stripSign (pyStrip s).toList).1
            (digitsVal digitVal10 10 (stripSign (pyStrip s).toList).2)))) ∧
      (∀ n : Int, parse_value (some s) = Except.ok (some n) →
        n = applySign (stripSign (pyStrip s).toList).1
              (digitsVal digitVal10 10
                ((stripSign (pyStrip s).toList).2.filter (fun c => ¬ c = '_'))))) := by
  refine ⟨rfl, ?_, ?_, ?_⟩
  · intro s hs
    simp only [parse_value]
    rw [if_pos hs]
  · exact parse_value_hex_cases
  · exact parse_value_dec_cases

/-- C2 witness: the characterization applied at concrete inputs — a bad
hex literal errors, a plain decimal and a hex literal parse to their
values, and a blank string is no-value. -/
theorem parse_value_characterization_witness :
    (∃ msg, parse_value (some "0xZZ") = Except.error msg) ∧
    parse_value (some " 26 ") = Except.ok (some 26) ∧
    parse_value (some "0x1A") = Except.ok (some 26) ∧
    parse_value (some "  ") = Except.ok none :=
  ⟨(parse_value_characterization.2.2.1 "0xZZ" (by decide)).1
      ⟨'Z', by decide, by decide, by decide⟩,
   (parse_value_characterization.2.2.2 " 26 " (by decide) (by decide)).2.1
      ⟨by decide, by decide⟩,
   (parse_value_characterization.2.2.1 "0x1A" (by decide)).2.1
      ⟨by decide, by decide⟩,
   parse_value_characterization.2.1 "  " (by decide)⟩
